import Mathlib

/-!
# Verification of motion's rotate.c

Shallow embedding of `src/rotate.c` (image rotation module of the motion
video-capture program) and proofs about it.

Memory is modelled as `List Nat` (one `Nat` per byte); pixel dimensions and
byte counts are `Nat`; values coming from C `int` configuration fields
(`conf.rotate_deg`, `rotate_data.degrees`) are `Int`, and C's `%` on `int`
(truncated remainder) is `Int.tmod`.
-/

set_option autoImplicit false

namespace Rotate

/-- V4L palette constant for YUV 4:2:0 planar (value irrelevant, must only be
distinct from the greyscale constant). -/
def VIDEO_PALETTE_YUV420P : Nat := 15

/-- V4L palette constant for greyscale. -/
def VIDEO_PALETTE_GREY : Nat := 1

/-- `memcpy dst src n`: the first `n` bytes of `dst` are overwritten with the
first `n` bytes of `src`; the rest of `dst` is unchanged. -/
def memcpy (dst src : List Nat) (n : Nat) : List Nat :=
  src.take n ++ dst.drop n

/-- Overwrite `dst` starting at byte offset `off` with the bytes `data`
(modelling a sequence of byte stores through a pointer `dst + off`). -/
def writeAt (dst : List Nat) (off : Nat) (data : List Nat) : List Nat :=
  dst.take off ++ data ++ dst.drop (off + data.length)

/-- Chunk a byte list into 4-byte groups ("quads"), the `uint32_t` cells that
`reverse_inplace_quad` operates on.  A trailing fragment of fewer than 4
bytes is outside the region the C loop touches. -/
def toQuads : List Nat → List (List Nat)
  | b0 :: b1 :: b2 :: b3 :: rest => [b0, b1, b2, b3] :: toQuads rest
  | _ => []

/-- The swap loop of `reverse_inplace_quad` on the list of quads: while the
two cursors have not met, the first and last remaining quads are exchanged
and each is byte-swapped (`tmp = bswap_32(*ndst); *ndst-- = bswap_32(*nsrc);
*nsrc++ = tmp;`).  Loading 4 bytes as a `uint32_t`, applying `bswap_32` and
storing reverses the 4 bytes in memory on either endianness, so a
byte-swapped quad is modelled as `List.reverse`.  When the cursors meet on a
middle quad (`nsrc == ndst`) the loop exits and that quad is untouched. -/
def riqQuads : List (List Nat) → List (List Nat)
  | [] => []
  | [q] => [q]
  | a :: b :: rest =>
      ((b :: rest).getLastD []).reverse ::
        (riqQuads ((b :: rest).dropLast) ++ [a.reverse])
  termination_by l => l.length
  decreasing_by
    simp [List.dropLast]
    omega

/-- `reverse_inplace_quad(src, size)`: reverses the first `size` bytes of
`src` in place, 4 bytes at a time (see `riqQuads`); bytes past `size` are
untouched. -/
def reverse_inplace_quad (src : List Nat) (size : Nat) : List Nat :=
  (riqQuads (toQuads (src.take size))).flatten ++ src.drop size

/-- `rot90cw(src, dst, size, width, height)`: 90° clockwise rotation.  The C
walks `base` over the last row of `src` (offsets `size - width + x` for
`x = 0 .. width-1`) and, for each `base`, reads `height` bytes upward
(`src -= width` each step), writing them to consecutive positions of `dst`
from `dst[0]` on.  The returned list is the `width*height` bytes written, in
destination order. -/
def rot90cw (src : List Nat) (size width height : Nat) : List Nat :=
  (List.range width).flatMap fun x =>
    (List.range height).map fun j => src.getD (size - width + x - j * width) 0

/-- `rot90ccw(src, dst, size, width, height)`: 90° counter-clockwise
rotation.  Same source traversal as `rot90cw`, but the destination cursor
starts at `dst + size - 1` and decrements, so the written bytes (the final
`width*height` positions of `dst`, ending at `dst[size-1]`) are the reverse
of the `rot90cw` write sequence.  The returned list is those bytes in
destination order. -/
def rot90ccw (src : List Nat) (size width height : Nat) : List Nat :=
  ((List.range width).flatMap fun x =>
    (List.range height).map fun j => src.getD (size - width + x - j * width) 0).reverse

/-- The fields of `struct context` that `rotate_init` reads and writes.
`temp_buf` is modelled as `Option Int`: `none` for `NULL`, `some size` for a
`mymalloc(size)` allocation of `size` bytes. -/
structure Context where
  conf_rotate_deg : Int
  imgs_width : Int
  imgs_height : Int
  imgs_type : Nat
  rotate_data_degrees : Int
  rotate_data_cap_width : Int
  rotate_data_cap_height : Int
  rotate_data_temp_buf : Option Int
deriving DecidableEq, Repr

/-- `rotate_init(cnt)`: angle validation/normalization, capture/output
dimension bookkeeping and scratch-buffer allocation, translated line by line
from `rotate.c`.  C's `%` on `int` is `Int.tmod`, C's `/` is `Int.tdiv`. -/
def rotate_init (cnt : Context) : Context :=
  -- cnt->rotate_data.temp_buf = NULL;
  let cnt := { cnt with rotate_data_temp_buf := none }
  -- angle validation and normalization
  let cnt :=
    if cnt.conf_rotate_deg.tmod 90 > 0 then
      { cnt with conf_rotate_deg := 0, rotate_data_degrees := 0 }
    else
      { cnt with rotate_data_degrees := cnt.conf_rotate_deg.tmod 360 }
  -- 1. Transfer capture dimensions into cap_width and cap_height.
  let cnt := { cnt with
    rotate_data_cap_width := cnt.imgs_width,
    rotate_data_cap_height := cnt.imgs_height }
  -- 2. "Swap" imgs.width and imgs.height.
  let cnt :=
    if cnt.rotate_data_degrees = 90 ∨ cnt.rotate_data_degrees = 270 then
      { cnt with
        imgs_width := cnt.rotate_data_cap_height,
        imgs_height := cnt.rotate_data_cap_width }
    else cnt
  if cnt.rotate_data_degrees = 0 then cnt
  else if cnt.imgs_type = VIDEO_PALETTE_YUV420P then
    let size := (cnt.imgs_width * cnt.imgs_height * 3).tdiv 2
    if cnt.rotate_data_degrees = 90 ∨ cnt.rotate_data_degrees = 270 then
      { cnt with rotate_data_temp_buf := some size }
    else cnt
  else if cnt.imgs_type = VIDEO_PALETTE_GREY then
    let size := cnt.imgs_width * cnt.imgs_height
    if cnt.rotate_data_degrees = 90 ∨ cnt.rotate_data_degrees = 270 then
      { cnt with rotate_data_temp_buf := some size }
    else cnt
  else
    { cnt with rotate_data_degrees := 0 }

/-- The fields of `struct context` that `rotate_map` reads (never writes).
The dimensions are `Nat` here because they index byte buffers; they are the
capture dimensions stored by `rotate_init`. -/
structure MapState where
  degrees : Int
  cap_width : Nat
  cap_height : Nat
  imgs_type : Nat
deriving DecidableEq, Repr

/-- `rotate_map(cnt, map)`: per-frame dispatch, translated from `rotate.c`.
`map` is the frame buffer, `temp` the scratch buffer
(`cnt->rotate_data.temp_buf`).  Returns the C return value together with the
final contents of `map` and of the scratch buffer. -/
def rotate_map (st : MapState) (map temp : List Nat) : Int × List Nat × List Nat :=
  let width := st.cap_width
  let height := st.cap_height
  let wh := width * height
  let isYuv := st.imgs_type = VIDEO_PALETTE_YUV420P
  let wh4 := wh / 4
  let w2 := width / 2
  let h2 := height / 2
  let size := if isYuv then wh * 3 / 2 else wh
  if st.degrees = 90 then
    -- rot90cw writes width*height bytes from dst[0] on
    let temp1 := writeAt temp 0 (rot90cw map wh width height)
    let temp2 :=
      if isYuv then
        writeAt (writeAt temp1 wh (rot90cw (map.drop wh) wh4 w2 h2))
          (wh + wh4) (rot90cw (map.drop (wh + wh4)) wh4 w2 h2)
      else temp1
    (0, memcpy map temp2 size, temp2)
  else if st.degrees = 180 then
    let map1 := reverse_inplace_quad map wh
    let map2 :=
      if isYuv then
        let m := map1.take wh ++ reverse_inplace_quad (map1.drop wh) wh4
        m.take (wh + wh4) ++ reverse_inplace_quad (m.drop (wh + wh4)) wh4
      else map1
    (0, map2, temp)
  else if st.degrees = 270 then
    -- rot90ccw writes width*height bytes ending at dst[size-1]
    let temp1 := writeAt temp (wh - wh) (rot90ccw map wh width height)
    let temp2 :=
      if isYuv then
        writeAt (writeAt temp1 (wh + (wh4 - w2 * h2)) (rot90ccw (map.drop wh) wh4 w2 h2))
          (wh + wh4 + (wh4 - w2 * h2)) (rot90ccw (map.drop (wh + wh4)) wh4 w2 h2)
      else temp1
    (0, memcpy map temp2 size, temp2)
  else
    (-1, map, temp)

/-- A baseline context: 32×16 greyscale capture, all rotation fields reset. -/
def baseCtx : Context where
  conf_rotate_deg := 0
  imgs_width := 32
  imgs_height := 16
  imgs_type := VIDEO_PALETTE_GREY
  rotate_data_degrees := 0
  rotate_data_cap_width := 0
  rotate_data_cap_height := 0
  rotate_data_temp_buf := none

/-- The 32×16 demonstration buffer of the spec: byte `i % 256` at index `i`. -/
def demoBuf : List Nat := (List.range (32 * 16)).map (fun i => i % 256)

/-- A 16×16 buffer with distinct entries, for round-trip instances. -/
def demoBuf256 : List Nat := List.range 256

/-- A greyscale 2×2 `rotate_map` state with the given degree value. -/
def greyState (deg : Int) : MapState where
  degrees := deg
  cap_width := 2
  cap_height := 2
  imgs_type := VIDEO_PALETTE_GREY

/- ## Theorems -/

/-- C2 (code_bug evidence): `rotate_init` at `conf.rotate_deg = 90 * (-1)`
stores `degrees = -90`, while at `(90 * (-1)) mod 360 = 270` it stores `270`;
`-90` is outside `{0, 90, 180, 270}` and outside the `0..359` range promised
by the code's own comment.  C's truncated `%` leaves negative multiples of 90
negative. -/
theorem rotate_init_negative_multiple_bug :
    (rotate_init { baseCtx with conf_rotate_deg := 90 * (-1) }).rotate_data_degrees = -90 ∧
    (rotate_init { baseCtx with conf_rotate_deg := (90 * (-1)) % 360 }).rotate_data_degrees = 270 ∧
    ¬((-90 : Int) = 0 ∨ (-90 : Int) = 90 ∨ (-90 : Int) = 180 ∨ (-90 : Int) = 270) := by
  decide

/-- C3 (code_bug evidence): `rotate_init` at the non-multiple-of-90 request
`-45` does not disable rotation: the stored angle is `-45`, not `0`.  The
guard `(rotate_deg % 90) > 0` misses negative remainders of C's truncated
`%`. -/
theorem rotate_init_negative_nonmultiple_bug :
    (rotate_init { baseCtx with conf_rotate_deg := -45 }).rotate_data_degrees = -45 ∧
    (-45 : Int) ≠ 0 := by
  decide

/-- C1 (counterexample): with `angle = 0`, `rotate_map` does not return
success: its switch has no `case 0`, so angle 0 falls into `default` and
returns `-1`. -/
theorem rotate_map_zero_not_ok :
    ¬((rotate_map (greyState 0) [10, 20, 30, 40] []).1 = 0) := by
  decide

/-- C1 (amended): for every state with `angle = 0`, `rotate_map` returns
failure (`-1`) and leaves the frame buffer (and scratch buffer) unchanged;
in general it returns an error exactly when the angle is outside
`{90, 180, 270}` (so angle 0 is an error, not a successful no-op). -/
theorem rotate_map_error_iff (st : MapState) (map temp : List Nat) :
    (st.degrees = 0 → rotate_map st map temp = (-1, map, temp)) ∧
    ((rotate_map st map temp).1 = -1 ↔
      ¬(st.degrees = 90 ∨ st.degrees = 180 ∨ st.degrees = 270)) := by
  refine ⟨fun h0 => by simp [rotate_map, h0], ?_⟩
  by_cases h90 : st.degrees = 90
  · simp [rotate_map, h90]
  · by_cases h180 : st.degrees = 180
    · simp [rotate_map, h90, h180]
    · by_cases h270 : st.degrees = 270
      · simp [rotate_map, h90, h180, h270]
      · simp [rotate_map, h90, h180, h270]

/-- Witness for `rotate_map_error_iff` at a concrete angle-0 state. -/
theorem rotate_map_error_iff_witness :
    ((greyState 0).degrees = 0 → rotate_map (greyState 0) [10, 20, 30, 40] [] =
      (-1, [10, 20, 30, 40], [])) ∧
    ((rotate_map (greyState 0) [10, 20, 30, 40] []).1 = -1 ↔
      ¬((greyState 0).degrees = 90 ∨ (greyState 0).degrees = 180 ∨
        (greyState 0).degrees = 270)) :=
  rotate_map_error_iff (greyState 0) [10, 20, 30, 40] []

/-- C10: whenever `rotate_map` returns `-1`, both the frame buffer and the
scratch buffer are returned unchanged: the only failing path is the
`default` branch, which performs no writes. -/
theorem rotate_map_error_no_writes (st : MapState) (map temp : List Nat)
    (h : (rotate_map st map temp).1 = -1) :
    rotate_map st map temp = (-1, map, temp) := by
  by_cases h90 : st.degrees = 90
  · simp [rotate_map, h90] at h
  · by_cases h180 : st.degrees = 180
    · simp [rotate_map, h90, h180] at h
    · by_cases h270 : st.degrees = 270
      · simp [rotate_map, h90, h180, h270] at h
      · simp [rotate_map, h90, h180, h270]

/-- Witness for `rotate_map_error_no_writes` at a concrete corrupted state. -/
theorem rotate_map_error_no_writes_witness :
    (rotate_map (greyState 45) [10, 20, 30, 40] [7]).1 = -1 ∧
    rotate_map (greyState 45) [10, 20, 30, 40] [7] = (-1, [10, 20, 30, 40], [7]) :=
  ⟨by decide, rotate_map_error_no_writes (greyState 45) [10, 20, 30, 40] [7] (by decide)⟩

/-- C9: after `rotate_init`, a scratch buffer exists iff the stored angle is
90 or 270 and the pixel format is supported; when it exists it holds
`width*height` bytes for greyscale and `width*height*3/2` for YUV 4:2:0,
computed from the output (post-swap) dimensions `imgs_width`/`imgs_height`;
for angle 0 or 180, and for any unsupported format, no scratch buffer
exists. -/
theorem rotate_init_scratch_invariant (cnt : Context) :
    ((rotate_init cnt).rotate_data_temp_buf ≠ none ↔
      (((rotate_init cnt).rotate_data_degrees = 90 ∨
          (rotate_init cnt).rotate_data_degrees = 270) ∧
        (cnt.imgs_type = VIDEO_PALETTE_YUV420P ∨ cnt.imgs_type = VIDEO_PALETTE_GREY))) ∧
    (((rotate_init cnt).rotate_data_degrees = 90 ∨
        (rotate_init cnt).rotate_data_degrees = 270) →
      cnt.imgs_type = VIDEO_PALETTE_GREY →
      (rotate_init cnt).rotate_data_temp_buf =
        some ((rotate_init cnt).imgs_width * (rotate_init cnt).imgs_height)) ∧
    (((rotate_init cnt).rotate_data_degrees = 90 ∨
        (rotate_init cnt).rotate_data_degrees = 270) →
      cnt.imgs_type = VIDEO_PALETTE_YUV420P →
      (rotate_init cnt).rotate_data_temp_buf =
        some (((rotate_init cnt).imgs_width * (rotate_init cnt).imgs_height * 3).tdiv 2)) ∧
    (((rotate_init cnt).rotate_data_degrees = 0 ∨
        (rotate_init cnt).rotate_data_degrees = 180) →
      (rotate_init cnt).rotate_data_temp_buf = none) ∧
    (¬(cnt.imgs_type = VIDEO_PALETTE_YUV420P ∨ cnt.imgs_type = VIDEO_PALETTE_GREY) →
      (rotate_init cnt).rotate_data_temp_buf = none) := by
  simp only [rotate_init]
  split_ifs <;> simp_all [VIDEO_PALETTE_YUV420P, VIDEO_PALETTE_GREY] <;> omega

/-- Witness for `rotate_init_scratch_invariant` at a 90° greyscale context. -/
theorem rotate_init_scratch_invariant_witness :
    ((rotate_init { baseCtx with conf_rotate_deg := 90 }).rotate_data_degrees = 90 ∨
      (rotate_init { baseCtx with conf_rotate_deg := 90 }).rotate_data_degrees = 270) ∧
    { baseCtx with conf_rotate_deg := 90 }.imgs_type = VIDEO_PALETTE_GREY ∧
    (rotate_init { baseCtx with conf_rotate_deg := 90 }).rotate_data_temp_buf =
      some ((rotate_init { baseCtx with conf_rotate_deg := 90 }).imgs_width *
        (rotate_init { baseCtx with conf_rotate_deg := 90 }).imgs_height) :=
  ⟨by decide, by decide,
    (rotate_init_scratch_invariant { baseCtx with conf_rotate_deg := 90 }).2.1
      (by decide) (by decide)⟩

/-- Length of a `width`-block concatenation of `height`-long rows. -/
theorem length_flatMap_range (f : Nat → Nat → Nat) (w h : Nat) :
    ((List.range w).flatMap (fun i => (List.range h).map (f i))).length = w * h := by
  induction w with
  | zero => simp
  | succ n ih =>
    rw [List.range_succ, List.flatMap_append]
    simp [ih, Nat.succ_mul]

/-- Indexing into a `width`-block concatenation of `height`-long rows. -/
theorem getD_flatMap_range (f : Nat → Nat → Nat) (w h x y : Nat) (hx : x < w)
    (hy : y < h) :
    ((List.range w).flatMap (fun i => (List.range h).map (f i))).getD (x * h + y) 0 =
      f x y := by
  induction w with
  | zero => exact absurd hx (Nat.not_lt_zero x)
  | succ n ih =>
    rw [List.range_succ, List.flatMap_append]
    rcases Nat.lt_succ_iff_lt_or_eq.mp hx with hxn | rfl
    · rw [List.getD_append]
      · exact ih hxn
      · rw [length_flatMap_range]
        have hm : x * h + h ≤ n * h := by
          simpa [Nat.add_mul] using Nat.mul_le_mul_right h hxn
        omega
    · rw [List.getD_append_right _ _ _ _ (by rw [length_flatMap_range]; omega)]
      rw [length_flatMap_range, Nat.add_sub_cancel_left]
      simp only [List.flatMap_cons, List.flatMap_nil, List.append_nil]
      rw [List.getD_eq_getElem _ _ (by simpa using hy)]
      simp

/-- `getD` through `List.reverse`. -/
theorem getD_reverse_eq (l : List Nat) (i : Nat) (hi : i < l.length) :
    l.reverse.getD i 0 = l.getD (l.length - 1 - i) 0 := by
  rw [List.getD_eq_getElem _ _ (by simpa using hi), List.getElem_reverse,
    List.getD_eq_getElem _ _ (by omega)]

/-- The byte offset read by the rotation loops, in row/column form. -/
theorem cw_index (w h x y : Nat) (hy : y < h) :
    w * h - w + x - y * w = (h - 1 - y) * w + x := by
  have e1 : (h - 1 - y) * w = h * w - w - y * w := by
    rw [Nat.sub_mul, Nat.sub_mul, Nat.one_mul]
  have h2 : y * w + w ≤ h * w := by
    simpa [Nat.add_mul] using Nat.mul_le_mul_right w hy
  rw [e1, Nat.mul_comm w h]
  omega

/-- `rot90cw` always produces `width * height` bytes. -/
theorem rot90cw_length (src : List Nat) (size w h : Nat) :
    (rot90cw src size w h).length = w * h :=
  length_flatMap_range _ w h

/-- Raw indexing fact for `rot90cw` with an arbitrary `size` argument. -/
theorem rot90cw_getD (src : List Nat) (size w h x y : Nat) (hx : x < w) (hy : y < h) :
    (rot90cw src size w h).getD (x * h + y) 0 =
      src.getD (size - w + x - y * w) 0 :=
  getD_flatMap_range (fun i j => src.getD (size - w + i - j * w) 0) w h x y hx hy

/-- Indexing fact for `rot90ccw` at `size = width * height`. -/
theorem rot90ccw_getD (src : List Nat) (w h x y : Nat) (hx : x < w) (hy : y < h) :
    (rot90ccw src (w * h) w h).getD ((w - 1 - x) * h + (h - 1 - y)) 0 =
      src.getD ((h - 1 - y) * w + x) 0 := by
  have hxs : x * h + h ≤ w * h := by
    simpa [Nat.add_mul] using Nat.mul_le_mul_right h hx
  have hseq : (rot90cw src (w * h) w h).length = w * h := rot90cw_length src (w * h) w h
  have hsub : (w - 1 - x) * h = w * h - h - x * h := by
    rw [Nat.sub_mul, Nat.sub_mul, Nat.one_mul]
  have hi : (w - 1 - x) * h + (h - 1 - y) < w * h := by rw [hsub]; omega
  have hrev : rot90ccw src (w * h) w h = (rot90cw src (w * h) w h).reverse := rfl
  rw [hrev, getD_reverse_eq _ _ (by rw [hseq]; exact hi), hseq]
  have hidx : w * h - 1 - ((w - 1 - x) * h + (h - 1 - y)) = x * h + y := by
    rw [hsub]; omega
  rw [hidx, rot90cw_getD src (w * h) w h x y hx hy, cw_index w h x y hy]

/-- C5: `rot90cw` realizes `dst[x*height + y] = src[(height-1-y)*width + x]`
for all `x < width`, `y < height`; in particular, on the 32×16 buffer with
byte `i % 256` at index `i`, the source byte at index `(height-1)*width + 0`
lands at destination index 0. -/
theorem rot90cw_spec (w h : Nat) (src : List Nat) (hw : 0 < w) (hh : 0 < h)
    (hlen : src.length = w * h) (x y : Nat) (hx : x < w) (hy : y < h) :
    (rot90cw src (w * h) w h).getD (x * h + y) 0 =
      src.getD ((h - 1 - y) * w + x) 0 ∧
    (rot90cw demoBuf (32 * 16) 32 16).getD 0 0 = demoBuf.getD ((16 - 1) * 32 + 0) 0 := by
  constructor
  · rw [rot90cw_getD src (w * h) w h x y hx hy, cw_index w h x y hy]
  · have h0 := rot90cw_getD demoBuf (32 * 16) 32 16 0 0 (by norm_num) (by norm_num)
    simpa using h0

/-- Witness for `rot90cw_spec` on the spec's 32×16 scenario buffer. -/
theorem rot90cw_spec_witness :
    (0 < 32 ∧ 0 < 16 ∧ demoBuf.length = 32 * 16 ∧ 0 < 32 ∧ 0 < 16) ∧
    ((rot90cw demoBuf (32 * 16) 32 16).getD (0 * 16 + 0) 0 =
        demoBuf.getD ((16 - 1 - 0) * 32 + 0) 0 ∧
      (rot90cw demoBuf (32 * 16) 32 16).getD 0 0 =
        demoBuf.getD ((16 - 1) * 32 + 0) 0) :=
  ⟨⟨by norm_num, by norm_num, by simp [demoBuf], by norm_num, by norm_num⟩,
    rot90cw_spec 32 16 demoBuf (by norm_num) (by norm_num) (by simp [demoBuf])
      0 0 (by norm_num) (by norm_num)⟩

/-- C6: `rot90ccw` realizes
`dst[(width-1-x)*height + (height-1-y)] = src[(height-1-y)*width + x]`, the
clockwise quarter-turn composed with a point reflection of the destination
buffer. -/
theorem rot90ccw_spec (w h : Nat) (src : List Nat) (hw : 0 < w) (hh : 0 < h)
    (hlen : src.length = w * h) (x y : Nat) (hx : x < w) (hy : y < h) :
    (rot90ccw src (w * h) w h).getD ((w - 1 - x) * h + (h - 1 - y)) 0 =
      src.getD ((h - 1 - y) * w + x) 0 :=
  rot90ccw_getD src w h x y hx hy

/-- Witness for `rot90ccw_spec` on the 32×16 scenario buffer. -/
theorem rot90ccw_spec_witness :
    (0 < 32 ∧ 0 < 16 ∧ demoBuf.length = 32 * 16 ∧ 1 < 32 ∧ 2 < 16) ∧
    (rot90ccw demoBuf (32 * 16) 32 16).getD ((32 - 1 - 1) * 16 + (16 - 1 - 2)) 0 =
      demoBuf.getD ((16 - 1 - 2) * 32 + 1) 0 :=
  ⟨⟨by norm_num, by norm_num, by simp [demoBuf], by norm_num, by norm_num⟩,
    rot90ccw_spec 32 16 demoBuf (by norm_num) (by norm_num) (by simp [demoBuf])
      1 2 (by norm_num) (by norm_num)⟩

/-- C7: a 90° clockwise turn of a `W×H` buffer followed by a 90°
counter-clockwise turn of the result (called with the swapped dimensions
`H×W`, as `rotate_map` at 270° would) reproduces the original buffer, for
`W`, `H` multiples of 16. -/
theorem rot90cw_ccw_inverse (W H : Nat) (hW : 16 ∣ W) (hH : 16 ∣ H)
    (a : List Nat) (hlen : a.length = W * H) :
    rot90ccw (rot90cw a (W * H) W H) (H * W) H W = a := by
  set b := rot90cw a (W * H) W H with hb
  have hblen : b.length = W * H := rot90cw_length a (W * H) W H
  apply List.ext_getElem
  · show (rot90ccw b (H * W) H W).length = a.length
    have : rot90ccw b (H * W) H W = (rot90cw b (H * W) H W).reverse := rfl
    rw [this, List.length_reverse, rot90cw_length, hlen, Nat.mul_comm]
  · intro i h1 h2
    have hWH : i < W * H := by rw [← hlen]; exact h2
    have hW0 : 0 < W := by
      rcases Nat.eq_zero_or_pos W with h0 | h0
      · rw [h0] at hWH; simp at hWH
      · exact h0
    have hH0 : 0 < H := by
      rcases Nat.eq_zero_or_pos H with h0 | h0
      · rw [h0, Nat.mul_zero] at hWH; simp at hWH
      · exact h0
    have hdiv : i / W < H := Nat.div_lt_of_lt_mul hWH
    have hmod : i % W < W := Nat.mod_lt _ hW0
    have hqr : W * (i / W) + i % W = i := Nat.div_add_mod i W
    obtain ⟨q, hqdef⟩ : ∃ q, i / W = q := ⟨_, rfl⟩
    obtain ⟨r, hrdef⟩ : ∃ r, i % W = r := ⟨_, rfl⟩
    rw [hqdef] at hdiv hqr
    rw [hrdef] at hmod hqr
    rw [← List.getD_eq_getElem _ 0 h1, ← List.getD_eq_getElem _ 0 h2]
    have e1 : H - 1 - (H - 1 - q) = q := by omega
    have e2 : W - 1 - (W - 1 - r) = r := by omega
    have eidx : (H - 1 - (H - 1 - q)) * W + (W - 1 - (W - 1 - r)) = i := by
      rw [e1, e2, Nat.mul_comm q W]
      exact hqr
    have step1 := rot90ccw_getD b H W (H - 1 - q) (W - 1 - r) (by omega) (by omega)
    rw [eidx, e2] at step1
    have step2 := rot90cw_getD a (W * H) W H r (H - 1 - q) hmod (by omega)
    rw [cw_index W H r (H - 1 - q) (by omega), e1] at step2
    have eidx2 : q * W + r = i := by rw [Nat.mul_comm q W]; exact hqr
    rw [eidx2] at step2
    calc (rot90ccw b (H * W) H W).getD i 0 = b.getD (r * H + (H - 1 - q)) 0 := step1
      _ = a.getD i 0 := step2

/-- Witness for `rot90cw_ccw_inverse` on a 16×16 buffer with distinct bytes. -/
theorem rot90cw_ccw_inverse_witness :
    ((16 : Nat) ∣ 16 ∧ demoBuf256.length = 16 * 16) ∧
    rot90ccw (rot90cw demoBuf256 (16 * 16) 16 16) (16 * 16) 16 16 = demoBuf256 :=
  ⟨⟨by norm_num, by simp [demoBuf256]⟩,
    rot90cw_ccw_inverse 16 16 (by norm_num) (by norm_num) demoBuf256 (by simp [demoBuf256])⟩

/-- Unfolding equation for the swap loop on a block of at least two quads:
the first and last quads are exchanged and byte-swapped, the interior is
processed recursively. -/
theorem riqQuads_cons_concat (a b : List Nat) (m : List (List Nat)) :
    riqQuads (a :: (m ++ [b])) = b.reverse :: (riqQuads m ++ [a.reverse]) := by
  cases m with
  | nil => simp [riqQuads]
  | cons c m' =>
    show riqQuads (a :: c :: (m' ++ [b])) = _
    rw [riqQuads]
    rw [show c :: (m' ++ [b]) = (c :: m') ++ [b] from rfl]
    rw [List.getLastD_concat, List.dropLast_concat]

/-- The swap loop touches every quad position exactly once: length is
preserved. -/
theorem riqQuads_length : ∀ l : List (List Nat), (riqQuads l).length = l.length := by
  intro l
  induction l using riqQuads.induct with
  | case1 => simp [riqQuads]
  | case2 q => simp [riqQuads]
  | case3 a b rest ih =>
    rw [riqQuads]
    simp only [List.length_cons, List.length_append, ih, List.length_dropLast]
    simp

/-- On an even number of quads the swap loop byte-swaps every quad and
reverses their order. -/
theorem riqQuads_even : ∀ l : List (List Nat), l.length % 2 = 0 →
    riqQuads l = (l.map List.reverse).reverse := by
  intro l
  induction l using riqQuads.induct with
  | case1 => intro _; simp [riqQuads]
  | case2 q => intro h; simp at h
  | case3 a b rest ih =>
    intro h
    rcases (b :: rest).eq_nil_or_concat with hnil | ⟨m, x, hmx⟩
    · exact absurd hnil (List.cons_ne_nil b rest)
    · rw [List.concat_eq_append] at hmx
      have hdl : (b :: rest).dropLast = m := by rw [hmx, List.dropLast_concat]
      rw [hdl] at ih
      have hlm : rest.length = m.length := by
        have := congrArg List.length hmx
        simpa using this
      have ihm : riqQuads m = (m.map List.reverse).reverse := by
        apply ih
        simp only [List.length_cons] at h
        omega
      rw [hmx, riqQuads_cons_concat, ihm]
      simp [List.reverse_append]

/-- The swap loop is an involution on any quad list: swapping the same pairs
again and double-reversing each quad restores the original. -/
theorem riqQuads_invol : ∀ l : List (List Nat), riqQuads (riqQuads l) = l := by
  intro l
  induction l using riqQuads.induct with
  | case1 => simp [riqQuads]
  | case2 q => simp [riqQuads]
  | case3 a b rest ih =>
    rcases (b :: rest).eq_nil_or_concat with hnil | ⟨m, x, hmx⟩
    · exact absurd hnil (List.cons_ne_nil b rest)
    · rw [List.concat_eq_append] at hmx
      have hdl : (b :: rest).dropLast = m := by rw [hmx, List.dropLast_concat]
      rw [hdl] at ih
      rw [hmx, riqQuads_cons_concat, riqQuads_cons_concat, ih]
      simp

/-- `toQuads` produces `size / 4` quads. -/
theorem toQuads_length : ∀ src : List Nat, (toQuads src).length = src.length / 4 := by
  intro src
  induction src using toQuads.induct with
  | case1 b0 b1 b2 b3 rest ih =>
    rw [toQuads]
    simp only [List.length_cons, ih]
    omega
  | case2 t h =>
    rcases t with _ | ⟨a, _ | ⟨b, _ | ⟨c, _ | ⟨d, r⟩⟩⟩⟩
    · simp [toQuads]
    · simp [toQuads]
    · simp [toQuads]
    · simp [toQuads]
    · exact absurd rfl (h a b c d r)

/-- Every quad produced by `toQuads` has exactly 4 bytes. -/
theorem toQuads_mem_len : ∀ (src : List Nat) (q : List Nat),
    q ∈ toQuads src → q.length = 4 := by
  intro src
  induction src using toQuads.induct with
  | case1 b0 b1 b2 b3 rest ih =>
    intro q hq
    rw [toQuads] at hq
    rcases List.mem_cons.mp hq with h4 | hrest
    · rw [h4]; rfl
    · exact ih q hrest
  | case2 t h =>
    intro q hq
    rcases t with _ | ⟨a, _ | ⟨b, _ | ⟨c, _ | ⟨d, r⟩⟩⟩⟩
    · simp [toQuads] at hq
    · simp [toQuads] at hq
    · simp [toQuads] at hq
    · simp [toQuads] at hq
    · exact absurd rfl (h a b c d r)

/-- The swap loop preserves 4-byte-ness of every quad. -/
theorem riqQuads_mem_len : ∀ l : List (List Nat), (∀ p ∈ l, p.length = 4) →
    ∀ q ∈ riqQuads l, q.length = 4 := by
  intro l
  induction l using riqQuads.induct with
  | case1 => intro _ q hq; simp [riqQuads] at hq
  | case2 p => intro h q hq; rw [riqQuads] at hq; simp at hq; rw [hq]; exact h p (by simp)
  | case3 a b rest ih =>
    intro h q hq
    rcases (b :: rest).eq_nil_or_concat with hnil | ⟨m, x, hmx⟩
    · exact absurd hnil (List.cons_ne_nil b rest)
    · rw [List.concat_eq_append] at hmx
      have hdl : (b :: rest).dropLast = m := by rw [hmx, List.dropLast_concat]
      rw [hdl] at ih
      rw [hmx, riqQuads_cons_concat] at hq
      rcases List.mem_cons.mp hq with hqx | hq2
      · rw [hqx, List.length_reverse]
        exact h x (by rw [hmx]; simp)
      · rcases List.mem_append.mp hq2 with hqm | hqa
        · exact ih (fun p hp => h p (by rw [hmx]; simp; right; left; exact hp)) q hqm
        · rw [List.mem_singleton.mp hqa, List.length_reverse]
          exact h a (by simp)

/-- Flattening a list of 4-byte quads gives `4 *` the quad count bytes. -/
theorem flatten_length_quads : ∀ ql : List (List Nat), (∀ q ∈ ql, q.length = 4) →
    ql.flatten.length = 4 * ql.length := by
  intro ql
  induction ql with
  | nil => intro _; rfl
  | cons q t ih =>
    intro h
    simp only [List.flatten_cons, List.length_append, List.length_cons]
    rw [h q (by simp), ih (fun p hp => h p (by simp [hp]))]
    omega

/-- Flattening then re-chunking a list of 4-byte quads is the identity. -/
theorem toQuads_flatten : ∀ ql : List (List Nat), (∀ q ∈ ql, q.length = 4) →
    toQuads ql.flatten = ql := by
  intro ql
  induction ql with
  | nil => intro _; rfl
  | cons q t ih =>
    intro h
    have hq : q.length = 4 := h q (by simp)
    rcases q with _ | ⟨a, _ | ⟨b, _ | ⟨c, _ | ⟨d, e⟩⟩⟩⟩ <;> simp at hq
    subst hq
    simp only [List.flatten_cons, List.cons_append, List.nil_append]
    rw [toQuads]
    rw [ih (fun p hp => h p (by simp [hp]))]

/-- Chunking a byte list whose length is a multiple of 4 and flattening
recovers it. -/
theorem flatten_toQuads : ∀ src : List Nat, src.length % 4 = 0 →
    (toQuads src).flatten = src := by
  intro src
  induction src using toQuads.induct with
  | case1 b0 b1 b2 b3 rest ih =>
    intro h
    rw [toQuads]
    simp only [List.flatten_cons, List.cons_append, List.nil_append]
    rw [ih (by simp at h; omega)]
  | case2 t ht =>
    intro h
    rcases t with _ | ⟨a, _ | ⟨b, _ | ⟨c, _ | ⟨d, r⟩⟩⟩⟩
    · simp [toQuads]
    · simp at h
    · simp at h
    · simp at h
    · exact absurd rfl (ht a b c d r)

/-- C4 (counterexample): on the 4-byte extent `[0,1,2,3]` (size 4, a
multiple of 4) `reverse_inplace_quad` is a no-op — the two cursors start
equal (`nsrc == ndst`), the loop body never runs — so it does not produce
the full byte reversal `[3,2,1,0]`.  In general any odd quad count leaves
the middle quad unreversed. -/
theorem riq_not_full_reverse_on_mul4 :
    (4 : Nat) % 4 = 0 ∧
    ¬(reverse_inplace_quad [0, 1, 2, 3] 4 = List.reverse [0, 1, 2, 3]) := by
  constructor
  · rfl
  · simp [reverse_inplace_quad, toQuads, riqQuads]

/-- C4 (amended): for every byte extent whose size is a multiple of 8
(equivalently, an even number of 4-byte quads — which holds for all extents
the caller passes, since plane sizes are multiples of 64 under the
multiple-of-16 dimension precondition), `reverse_inplace_quad` produces
exactly the full byte-for-byte reversal of the extent. -/
theorem riq_full_reverse (src : List Nat) (h8 : src.length % 8 = 0) :
    reverse_inplace_quad src src.length = src.reverse := by
  unfold reverse_inplace_quad
  rw [List.take_length, List.drop_length, List.append_nil]
  rw [riqQuads_even _ (by rw [toQuads_length]; omega)]
  rw [← List.reverse_flatten, flatten_toQuads _ (by omega)]

/-- Witness for `riq_full_reverse` on an 8-byte extent. -/
theorem riq_full_reverse_witness :
    ([10, 11, 12, 13, 14, 15, 16, 17] : List Nat).length % 8 = 0 ∧
    reverse_inplace_quad [10, 11, 12, 13, 14, 15, 16, 17]
        ([10, 11, 12, 13, 14, 15, 16, 17] : List Nat).length =
      List.reverse [10, 11, 12, 13, 14, 15, 16, 17] :=
  ⟨by decide, riq_full_reverse [10, 11, 12, 13, 14, 15, 16, 17] (by decide)⟩

/-- C8: applying the in-place half-turn twice to a buffer whose size is a
positive multiple of 4 restores the original byte contents (each quad is
moved back to its place and byte-swapped twice; a middle quad is untouched
twice). -/
theorem riq_involution (src : List Nat) (hpos : 0 < src.length)
    (h4 : src.length % 4 = 0) :
    reverse_inplace_quad (reverse_inplace_quad src src.length) src.length = src := by
  have hql : ∀ q ∈ toQuads src, q.length = 4 := toQuads_mem_len src
  have hrq : ∀ q ∈ riqQuads (toQuads src), q.length = 4 := riqQuads_mem_len _ hql
  have hlen1 : ((riqQuads (toQuads src)).flatten).length = src.length := by
    rw [flatten_length_quads _ hrq, riqQuads_length, toQuads_length]
    omega
  have hinner : reverse_inplace_quad src src.length = (riqQuads (toQuads src)).flatten := by
    unfold reverse_inplace_quad
    rw [List.take_length, List.drop_length, List.append_nil]
  rw [hinner]
  unfold reverse_inplace_quad
  rw [List.take_of_length_le (le_of_eq hlen1), List.drop_eq_nil_of_le (le_of_eq hlen1)]
  rw [List.append_nil, toQuads_flatten _ hrq, riqQuads_invol, flatten_toQuads _ h4]

/-- Witness for `riq_involution` on a 4-byte buffer. -/
theorem riq_involution_witness :
    (0 < ([5, 6, 7, 8] : List Nat).length ∧ ([5, 6, 7, 8] : List Nat).length % 4 = 0) ∧
    reverse_inplace_quad (reverse_inplace_quad [5, 6, 7, 8] ([5, 6, 7, 8] : List Nat).length)
      ([5, 6, 7, 8] : List Nat).length = [5, 6, 7, 8] :=
  ⟨⟨by decide, by decide⟩, riq_involution [5, 6, 7, 8] (by decide) (by decide)⟩

end Rotate
